import Mathlib

/-!
# Structured logger configuration and context propagation

A shallow embedding of `libs/go-common/logger` (`logger.go`, `middleware.go`)
together with the parts of the Go standard library it calls
(`strings.ToLower`, `context.WithValue`, `log/slog`).

* Go strings are modelled as sequences of Unicode code points (`String`);
  byte strings that are not valid UTF-8 are outside the model.
* `*slog.Logger` values are pointers: `none` is the nil pointer, `some a` the
  address of a logger object kept in the `World`.
* Every operation of the package is a state transformer over the `World`;
  a Go panic is the result `none`.
-/

/-! ## `unicode` and `strings` -/

namespace unicode

/-- Go `unicode.MaxASCII`. -/
def MaxASCII : Nat := 0x7F

/-- Go `unicode.ToLower`. Runes up to `MaxASCII` are folded arithmetically;
every other rune goes through `unicode.To(LowerCase, r)`, a lookup in the table
`unicode.CaseRanges`, which is taken here as the parameter `caseTo`. -/
def ToLower (caseTo : Char → Char) (r : Char) : Char :=
  if r.toNat ≤ MaxASCII then
    if 'A' ≤ r ∧ r ≤ 'Z' then Char.ofNat (r.toNat + ('a'.toNat - 'A'.toNat)) else r
  else caseTo r

end unicode

namespace strings

/-- The byte rewrite of the ASCII fast path of `strings.ToLower`:
`if 'A' <= c && c <= 'Z' then c += 'a' - 'A'`. -/
def lowerByte (c : Char) : Char :=
  if 'A' ≤ c ∧ c ≤ 'Z' then Char.ofNat (c.toNat + ('a'.toNat - 'A'.toNat)) else c

/-- Go `strings.ToLower`. A string without a byte `>= utf8.RuneSelf` takes the
ASCII path (returned as is when it has no upper-case letter); any other string
is mapped rune by rune with `unicode.ToLower`. -/
def ToLower (caseTo : Char → Char) (s : String) : String :=
  let isASCII := s.data.all (fun c => decide (c.toNat < 0x80))
  let hasUpper := s.data.any (fun c => decide ('A' ≤ c ∧ c ≤ 'Z'))
  if isASCII then
    if !hasUpper then s else ⟨s.data.map lowerByte⟩
  else ⟨s.data.map (unicode.ToLower caseTo)⟩

end strings

/-! ## `log/slog` -/

namespace slog

/-- Go `slog.Level`, an `int`. -/
abbrev Level := Int

/-- Go `slog.LevelDebug`. -/
def LevelDebug : Level := -4

/-- Go `slog.LevelInfo`. -/
def LevelInfo : Level := 0

/-- Go `slog.LevelWarn`. -/
def LevelWarn : Level := 4

/-- Go `slog.LevelError`. -/
def LevelError : Level := 8

/-- The `io.Writer` values this package hands to a handler. -/
inductive Writer where
  | Stdout
  | Stderr
  deriving DecidableEq

mutual
/-- Go `slog.Value`. `any none` is the zero Value (kind Any holding nil),
`any (some t)` a non-nil value of kind Any, identified by a token. Values of
kind LogValuer are not modelled: resolving them runs caller code. -/
inductive Value where
  | any (x : Option Nat)
  | bool (b : Bool)
  | int64 (n : Int)
  | string (s : String)
  | group (as : List Attr)
/-- Go `slog.Attr`: a key and a value. -/
inductive Attr where
  | mk (Key : String) (Value : Value)
end

/-- The field `Key` of an Attr. -/
def Attr.Key : Attr → String
  | ⟨k, _⟩ => k

/-- The field `Value` of an Attr. -/
def Attr.Value : Attr → Value
  | ⟨_, v⟩ => v

/-- The zero `slog.Value`: `v.num == 0 && v.any == nil`. -/
def Value.isZero : Value → Bool
  | .any none => true
  | _ => false

/-- Go `Attr.isEmpty`: `a.Key == "" && a.Value.num == 0 && a.Value.any == nil`. -/
def Attr.isEmpty (a : Attr) : Bool :=
  a.Key == "" && a.Value.isZero

/-- Go `Value.isEmptyGroup`: a value of kind Group with no attributes. -/
def Value.isEmptyGroup : Value → Bool
  | .group [] => true
  | _ => false

/-- Whether a value is of kind Group: `v.Kind() == KindGroup`. -/
def Value.isGroup : Value → Bool
  | .group _ => true
  | _ => false

/-- Go `countEmptyGroups`. -/
def countEmptyGroups : List Attr → Nat
  | [] => 0
  | a :: rest => (if a.Value.isEmptyGroup then 1 else 0) + countEmptyGroups rest

/-- One attribute as a built-in handler writes it: the path of its key (the
enclosing group names, then the key) and its value. JSON output nests the path
as objects, text output joins it with dots. -/
abbrev Field := List String × Value

mutual
/-- Go `handleState.appendAttr`, with `ReplaceAttr` nil: an empty Attr is
elided, a group with an empty key is inlined, a group with a key opens that
group around its attributes, and nothing is written for a group that has no
attributes. `groups` are the groups open at this point. -/
def appendAttr (groups : List String) : Attr → List Field
  | ⟨key, .group as⟩ => appendAttrs (if key = "" then groups else groups ++ [key]) as
  | ⟨key, v⟩ => if key == "" && v.isZero then [] else [(groups ++ [key], v)]
/-- Go `handleState.appendAttrs`: the attributes one after the other. -/
def appendAttrs (groups : List String) : List Attr → List Field
  | [] => []
  | a :: rest => appendAttr groups a ++ appendAttrs groups rest
end

/-- Go `slog.HandlerOptions`. `Level` is a `Leveler`, nil when unset.
`ReplaceAttr` is nil in every handler this package builds and is left out. -/
structure HandlerOptions where
  AddSource : Bool
  Level : Option Level
  deriving DecidableEq

/-- Go `slog.commonHandler`, the state shared by the two built-in handlers.
`preformattedAttrs` holds the attributes attached so far, already formatted,
oldest first. No group is ever opened by this package (`WithGroup` is not
called), so handlers are modelled with no open group. -/
structure commonHandler where
  json : Bool
  opts : HandlerOptions
  preformattedAttrs : List Field
  w : Writer

/-- Go `slog.Handler`, restricted to the implementations of package slog:
the text handler, the JSON handler, and the `defaultHandler` of the logger
that `slog.Default` returns until another is installed. Each of them keeps its
options and attributes in a `commonHandler`. -/
inductive Handler where
  | TextHandler (h : commonHandler)
  | JSONHandler (h : commonHandler)
  | defaultHandler (ch : commonHandler)

/-- The `commonHandler` embedded in a handler. -/
def Handler.common : Handler → commonHandler
  | .TextHandler h => h
  | .JSONHandler h => h
  | .defaultHandler ch => ch

/-- Go `slog.NewTextHandler`. -/
def NewTextHandler (w : Writer) (opts : HandlerOptions) : Handler :=
  .TextHandler { json := false, opts := opts, preformattedAttrs := [], w := w }

/-- Go `slog.NewJSONHandler`. -/
def NewJSONHandler (w : Writer) (opts : HandlerOptions) : Handler :=
  .JSONHandler { json := true, opts := opts, preformattedAttrs := [], w := w }

/-- Go `commonHandler.withAttrs`: the handler itself when every attribute is
an empty group, otherwise a clone whose pre-formatted attributes are extended
by the formatted `as`. -/
def commonHandler.withAttrs (h : commonHandler) (as : List Attr) : commonHandler :=
  if countEmptyGroups as = as.length then h
  else { h with preformattedAttrs := h.preformattedAttrs ++ appendAttrs [] as }

/-- Go `Handler.WithAttrs` of these handlers: the same kind of handler around
`commonHandler.withAttrs`. -/
def Handler.WithAttrs : Handler → List Attr → Handler
  | .TextHandler h, as => .TextHandler (h.withAttrs as)
  | .JSONHandler h, as => .JSONHandler (h.withAttrs as)
  | .defaultHandler ch, as => .defaultHandler (ch.withAttrs as)

/-- Go `commonHandler.enabled`: the minimum level is Info unless
`opts.Level` is set. -/
def commonHandler.enabled (h : commonHandler) (l : Level) : Bool :=
  let minLevel := match h.opts.Level with
    | some lv => lv
    | none => LevelInfo
  decide (l ≥ minLevel)

/-- Go `slog.Record`, without its time and program counter. -/
structure Record where
  Level : Level
  Message : String
  Attrs : List Attr

/-- What a built-in handler writes for one record: where, in which format, the
built-in fields, and the attributes in output order. -/
structure Output where
  w : Writer
  json : Bool
  level : Level
  msg : String
  source : Bool
  attrs : List Field

/-- Go `commonHandler.handle`: the built-in fields (the source location only
with `AddSource`), then the pre-formatted attributes, then the attributes of
the record. -/
def commonHandler.handle (h : commonHandler) (r : Record) : Output :=
  { w := h.w, json := h.json, level := r.Level, msg := r.Message,
    source := h.opts.AddSource,
    attrs := h.preformattedAttrs ++ appendAttrs [] r.Attrs }

/-- Go `slog.Logger`. -/
structure Logger where
  handler : Handler

/-- What `Logger.log` emits for a record: nothing below the minimum level of
the handler, otherwise what the handler writes. -/
def Logger.log (l : Logger) (r : Record) : Option Output :=
  if l.handler.common.enabled r.Level then some (l.handler.common.handle r) else none

/-- A `*slog.Logger`: nil, or the address of a logger object. -/
abbrev LoggerPtr := Option Nat

end slog

/-! ## The process state -/

/-- The part of the Go heap and of the package-level variables these
operations read or write: the `slog.Logger` objects allocated so far, by
address, and the pointer held by `slog`'s process-wide default logger. -/
structure World where
  loggers : List slog.Logger
  defaultLogger : Nat

/-- The logger object a pointer refers to; `none` for the nil pointer (and
for an address that was never allocated, which no Go program can hold). -/
def World.deref (w : World) : slog.LoggerPtr → Option slog.Logger
  | none => none
  | some a => w.loggers[a]?

/-- Allocation of a fresh logger object, `&Logger{..}`: earlier objects keep
their address and content. -/
def World.alloc (w : World) (l : slog.Logger) : slog.LoggerPtr × World :=
  (some w.loggers.length, { w with loggers := w.loggers ++ [l] })

/-- A Go computation over the process state; `none` is a panic. -/
abbrev Exec (α : Type) := StateT World Option α

namespace slog

/-- Go `slog.Default`: the pointer currently held by the default logger. -/
def Default : Exec LoggerPtr := fun w => some (some w.defaultLogger, w)

/-- Go `slog.New`: a new logger object for a (non-nil) handler. -/
def New (h : Handler) : Exec LoggerPtr := fun w => some (w.alloc { handler := h })

/-- Go `(*Logger).With`. With no argument the receiver itself is returned,
also when it is nil. Otherwise the receiver is dereferenced (`l.clone()`,
a nil pointer dereference when `l` is nil) and a new logger is allocated whose
handler is `l.handler.WithAttrs(argsToAttrSlice(args))`. The arguments are
given as the list of Attrs they hold: for an argument of dynamic type `Attr`,
`argsToAttr` returns that Attr itself and goes on with the next argument. -/
def Logger.With (l : LoggerPtr) (args : List Attr) : Exec LoggerPtr := fun w =>
  if args.length = 0 then some (l, w)
  else match w.deref l with
    | none => none
    | some c => some (w.alloc { c with handler := c.handler.WithAttrs args })

end slog

/-! ## `context` -/

namespace context

/-- Go values of type `any` as far as contexts hold them: the one value
`contextKey{}` of the package's private key type, a `*slog.Logger` (possibly
nil), or any other value, identified by a token. -/
inductive Any where
  | contextKey
  | logger (l : slog.LoggerPtr)
  | other (id : Nat)
  deriving DecidableEq

/-- Go `context.Context` (non-nil, as the package documentation requires of
every caller): the empty root context, a `valueCtx` node, or a node that adds
cancellation or a deadline and no value. -/
inductive Context where
  | Background
  | valueCtx (parent : Context) (key val : Any)
  | cancelCtx (parent : Context)
  deriving DecidableEq

/-- Go `context.WithValue`: `&valueCtx{parent, key, val}`. -/
def WithValue (parent : Context) (key val : Any) : Context :=
  .valueCtx parent key val

/-- Go `Context.Value`: the value of the nearest node with that key, walking
up the parents; `none` is the nil interface returned when there is none. -/
def Context.Value : Context → Any → Option Any
  | .Background, _ => none
  | .valueCtx parent k v, key => if key = k then some v else parent.Value key
  | .cancelCtx parent, key => parent.Value key

end context

/-! ## Package `logger` -/

namespace logger

open context (Context Any)

/-- Source: `logger.go`, lines 10-14, `Config`. -/
structure Config where
  Level : String
  Format : String
  Output : String
  deriving DecidableEq

/-- Source: `logger.go`, lines 16-22, `DefaultConfig`. -/
def DefaultConfig : Config :=
  { Level := "info", Format := "json", Output := "stdout" }

/-- Source: `logger.go`, lines 44-55, `parseLevel`. -/
def parseLevel (caseTo : Char → Char) (s : String) : slog.Level :=
  match strings.ToLower caseTo s with
  | "debug" => slog.LevelDebug
  | "warn" | "warning" => slog.LevelWarn
  | "error" => slog.LevelError
  | _ => slog.LevelInfo

/-- Source: `logger.go`, lines 57-64, `parseOutput`. -/
def parseOutput (caseTo : Char → Char) (s : String) : slog.Writer :=
  match strings.ToLower caseTo s with
  | "stderr" => slog.Writer.Stderr
  | _ => slog.Writer.Stdout

/-- Source: `logger.go`, lines 24-42, `New`. The handler options hold the
resolved level and `AddSource: level == slog.LevelDebug`; the switch on the
lower-cased format picks the handler. -/
def New (caseTo : Char → Char) (cfg : Config) : Exec slog.LoggerPtr :=
  let level := parseLevel caseTo cfg.Level
  let writer := parseOutput caseTo cfg.Output
  let opts : slog.HandlerOptions :=
    { Level := some level, AddSource := level == slog.LevelDebug }
  let handler : slog.Handler :=
    match strings.ToLower caseTo cfg.Format with
    | "text" => slog.NewTextHandler writer opts
    | _ => slog.NewJSONHandler writer opts
  slog.New handler

/-- Source: `middleware.go`, lines 10-12, `WithLogger`. -/
def WithLogger (ctx : Context) (l : slog.LoggerPtr) : Exec Context :=
  pure (context.WithValue ctx Any.contextKey (Any.logger l))

/-- Source: `middleware.go`, lines 14-19, `FromContext`. The type assertion
succeeds exactly on a value of dynamic type `*slog.Logger`, a nil pointer of
that type included. -/
def FromContext (ctx : Context) : Exec slog.LoggerPtr :=
  match ctx.Value Any.contextKey with
  | some (Any.logger l) => pure l
  | _ => slog.Default

/-- The call `FromContext(ctx)` for an interface value that may be nil
(`none`): line 15 of `middleware.go` begins with the method call
`ctx.Value(contextKey{})`, a run-time panic on the nil interface; on a non-nil
context the call is `FromContext`. -/
def FromContextCall (ctx : Option Context) : Exec slog.LoggerPtr :=
  match ctx with
  | none => fun _ => none
  | some c => FromContext c

/-- Source: `middleware.go`, lines 21-28, `With`. The loop copies the Attrs
one by one into `args`, in order. -/
def With (ctx : Context) (attrs : List slog.Attr) : Exec Context := do
  let l ← FromContext ctx
  let args := attrs
  let l2 ← slog.Logger.With l args
  WithLogger ctx l2

end logger

/-- A sample process state: one logger object, the default one, whose
handler is a `defaultHandler` with no option set and no attribute, writing
text lines to standard error. -/
def World.start : World :=
  { loggers := [{ handler := slog.Handler.defaultHandler
                    { json := false, opts := { AddSource := false, Level := none },
                      preformattedAttrs := [], w := slog.Writer.Stderr } }],
    defaultLogger := 0 }

namespace logger

/-- The logger object behind the pointer a computation returns, read in the
state it leaves; `none` when it panics or returns nil. -/
def built (x : Exec slog.LoggerPtr) (w : World) : Option slog.Logger :=
  match x w with
  | some (p, w2) => w2.deref p
  | none => none

end logger

/-! ## Lemmas on the model -/

open logger context slog

theorem World.deref_alloc (w : World) (l : slog.Logger) :
    (w.alloc l).2.deref (w.alloc l).1 = some l := by
  simp [World.alloc, World.deref]

theorem World.deref_alloc_of_deref (w : World) (l c : slog.Logger) (p : LoggerPtr)
    (h : w.deref p = some c) : (w.alloc l).2.deref p = some c := by
  cases p with
  | none => simp [World.deref] at h
  | some a =>
    simp only [World.deref, World.alloc] at h ⊢
    have hlt : a < w.loggers.length := by
      by_contra hge
      rw [List.getElem?_eq_none (by omega)] at h
      cases h
    rw [List.getElem?_append_left hlt]
    exact h

theorem slog.countEmptyGroups_le (as : List Attr) : countEmptyGroups as ≤ as.length := by
  induction as with
  | nil => simp [countEmptyGroups]
  | cons a t ih =>
    simp only [countEmptyGroups, List.length_cons]
    split <;> omega

theorem slog.appendAttr_of_isEmptyGroup (g : List String) (a : Attr)
    (h : a.Value.isEmptyGroup = true) : appendAttr g a = [] := by
  obtain ⟨k, v⟩ := a
  cases v with
  | group as =>
    cases as with
    | nil => simp [appendAttr, appendAttrs]
    | cons x t => simp [Attr.Value, Value.isEmptyGroup] at h
  | _ => simp [Attr.Value, Value.isEmptyGroup] at h

theorem slog.appendAttrs_of_countEmptyGroups (g : List String) (as : List Attr)
    (h : countEmptyGroups as = as.length) : appendAttrs g as = [] := by
  induction as with
  | nil => simp [appendAttrs]
  | cons a t ih =>
    have hle := slog.countEmptyGroups_le t
    simp only [countEmptyGroups, List.length_cons] at h
    split at h
    · rename_i he
      simp [appendAttrs, slog.appendAttr_of_isEmptyGroup g a he, ih (by omega)]
    · omega

theorem slog.withAttrs_preformattedAttrs (h : commonHandler) (as : List Attr) :
    (h.withAttrs as).preformattedAttrs = h.preformattedAttrs ++ appendAttrs [] as := by
  unfold commonHandler.withAttrs
  split
  · rename_i he
    simp [slog.appendAttrs_of_countEmptyGroups [] as he]
  · rfl

theorem slog.withAttrs_rest (h : commonHandler) (as : List Attr) :
    (h.withAttrs as).json = h.json ∧ (h.withAttrs as).opts = h.opts ∧
      (h.withAttrs as).w = h.w := by
  unfold commonHandler.withAttrs
  split <;> simp

theorem slog.WithAttrs_nil (h : Handler) : h.WithAttrs [] = h := by
  cases h <;> simp [Handler.WithAttrs, commonHandler.withAttrs, countEmptyGroups]

theorem slog.WithAttrs_common (h : Handler) (as : List Attr) :
    (h.WithAttrs as).common = h.common.withAttrs as := by
  cases h <;> rfl

theorem slog.Logger_With_of_deref (l : LoggerPtr) (args : List Attr) (w : World) (c : Logger)
    (h : w.deref l = some c) :
    ∃ p w2, Logger.With l args w = some (p, w2) ∧
      w2.deref p = some { handler := c.handler.WithAttrs args } ∧
      (∀ q d, w.deref q = some d → w2.deref q = some d) ∧
      w2.defaultLogger = w.defaultLogger := by
  unfold Logger.With
  by_cases hlen : args.length = 0
  · have hnil : args = [] := List.length_eq_zero.mp hlen
    subst hnil
    refine ⟨l, w, by simp, ?_, fun _ _ hq => hq, rfl⟩
    rw [slog.WithAttrs_nil]
    exact h
  · refine ⟨(w.alloc { handler := c.handler.WithAttrs args }).1,
      (w.alloc { handler := c.handler.WithAttrs args }).2, by simp [hlen, h], ?_, ?_, rfl⟩
    · exact World.deref_alloc w _
    · intro q d hq
      exact World.deref_alloc_of_deref w _ d q hq

theorem slog.Logger_With_frame (l : LoggerPtr) (args : List Attr) (w w2 : World) (p : LoggerPtr)
    (h : Logger.With l args w = some (p, w2)) :
    (∀ q d, w.deref q = some d → w2.deref q = some d) ∧
      w2.defaultLogger = w.defaultLogger := by
  unfold Logger.With at h
  by_cases hlen : args.length = 0
  · simp [hlen] at h
    obtain ⟨_, rfl⟩ := h
    exact ⟨fun _ _ hq => hq, rfl⟩
  · simp only [hlen, if_false] at h
    cases hd : w.deref l with
    | none => simp [hd] at h
    | some c =>
      simp only [hd, Option.some.injEq] at h
      have h2 : w2 = (w.alloc { handler := c.handler.WithAttrs args }).2 := by rw [h]
      subst h2
      exact ⟨fun q d hq => World.deref_alloc_of_deref w _ d q hq, rfl⟩

theorem slog.Logger_With_deref_self (l : LoggerPtr) (args : List Attr) (w w2 : World)
    (p : LoggerPtr) (h : Logger.With l args w = some (p, w2)) : w2.deref l = w.deref l := by
  cases hd : w.deref l with
  | some c => exact (slog.Logger_With_frame l args w w2 p h).1 l c hd
  | none =>
    unfold Logger.With at h
    by_cases hlen : args.length = 0
    · simp only [hlen, if_true, Option.some.injEq, Prod.mk.injEq] at h
      rw [← h.2]
      exact hd
    · simp [hlen, hd] at h

theorem slog.appendAttr_plain (g : List String) (a : Attr)
    (hg : a.Value.isGroup = false) (he : a.isEmpty = false) :
    appendAttr g a = [(g ++ [a.Key], a.Value)] := by
  obtain ⟨k, v⟩ := a
  have hne : ¬ (k = "" ∧ v.isZero = true) := by
    intro hk
    simp [Attr.isEmpty, Attr.Key, Attr.Value, hk.1, hk.2] at he
  cases v with
  | group as => simp [Attr.Value, Value.isGroup] at hg
  | any x => simp only [appendAttr, Attr.Key, Attr.Value, Bool.and_eq_true, beq_iff_eq, hne, if_false]
  | bool b => simp only [appendAttr, Attr.Key, Attr.Value, Bool.and_eq_true, beq_iff_eq, hne, if_false]
  | int64 n => simp only [appendAttr, Attr.Key, Attr.Value, Bool.and_eq_true, beq_iff_eq, hne, if_false]
  | string s => simp only [appendAttr, Attr.Key, Attr.Value, Bool.and_eq_true, beq_iff_eq, hne, if_false]

theorem slog.appendAttrs_plain (g : List String) (as : List Attr)
    (h : ∀ a ∈ as, a.Value.isGroup = false ∧ a.isEmpty = false) :
    appendAttrs g as = as.map (fun a => (g ++ [a.Key], a.Value)) := by
  induction as with
  | nil => simp [appendAttrs]
  | cons a t ih =>
    have ha := h a (List.mem_cons_self a t)
    have ht := ih (fun b hb => h b (List.mem_cons_of_mem a hb))
    simp only [appendAttrs, slog.appendAttr_plain g a ha.1 ha.2, ht, List.map_cons,
      List.singleton_append]

theorem logger.FromContext_eq (ctx : Context) (w : World) :
    FromContext ctx w =
      some ((match ctx.Value Any.contextKey with
              | some (Any.logger l) => l
              | _ => some w.defaultLogger), w) := by
  unfold FromContext
  cases ctx.Value Any.contextKey with
  | none => rfl
  | some v => cases v <;> rfl

theorem logger.FromContext_WithLogger (ctx : Context) (l : LoggerPtr) (w : World) :
    FromContext (context.WithValue ctx Any.contextKey (Any.logger l)) w = some (l, w) := by
  rw [logger.FromContext_eq]
  simp [context.WithValue, Context.Value]

theorem logger.With_eq (ctx : Context) (attrs : List Attr) (w : World) :
    With ctx attrs w =
      match FromContext ctx w with
      | none => none
      | some (l, w1) =>
        match slog.Logger.With l attrs w1 with
        | none => none
        | some (l2, w2) => WithLogger ctx l2 w2 := by
  rw [logger.FromContext_eq]
  simp only [With, logger.FromContext_eq, bind, StateT.bind, Option.bind]
  cases slog.Logger.With _ attrs w <;> rfl

theorem logger.With_inv (ctx : Context) (attrs : List Attr) (w w2 : World) (c : Context)
    (h : With ctx attrs w = some (c, w2)) :
    ∃ l l2, FromContext ctx w = some (l, w) ∧ slog.Logger.With l attrs w = some (l2, w2) ∧
      c = context.WithValue ctx Any.contextKey (Any.logger l2) := by
  rw [logger.With_eq, logger.FromContext_eq] at h
  simp only at h
  rw [logger.FromContext_eq]
  cases hw : slog.Logger.With _ attrs w with
  | none => rw [hw] at h; cases h
  | some r =>
    obtain ⟨l2, w3⟩ := r
    rw [hw] at h
    simp only [WithLogger, pure, StateT.pure, Option.some.injEq, Prod.mk.injEq] at h
    obtain ⟨rfl, rfl⟩ := h
    exact ⟨_, l2, rfl, hw, rfl⟩

theorem logger.With_of_built (ctx : Context) (attrs : List Attr) (w : World) (lg : Logger)
    (h : built (FromContext ctx) w = some lg) :
    ∃ p w2, With ctx attrs w =
        some (context.WithValue ctx Any.contextKey (Any.logger p), w2) ∧
      w2.deref p = some { handler := lg.handler.WithAttrs attrs } := by
  unfold built at h
  rw [logger.FromContext_eq] at h
  simp only at h
  obtain ⟨p, w2, hw, hd, -, -⟩ := slog.Logger_With_of_deref _ attrs w lg h
  refine ⟨p, w2, ?_, hd⟩
  rw [logger.With_eq, logger.FromContext_eq]
  simp only [hw]
  rfl

theorem logger.built_bind {α : Type} (x : Exec α) (f : α → Exec LoggerPtr) (w w2 : World)
    (a : α) (h : x w = some (a, w2)) : built (x >>= f) w = built (f a) w2 := by
  unfold built
  simp only [bind, StateT.bind, h, Option.bind]

theorem logger.built_With_FromContext (ctx : Context) (attrs : List Attr) (w : World)
    (lg : Logger) (h : built (FromContext ctx) w = some lg) :
    ∃ c w2, With ctx attrs w = some (c, w2) ∧
      built (FromContext c) w2 = some { handler := lg.handler.WithAttrs attrs } := by
  obtain ⟨p, w2, hw, hd⟩ := logger.With_of_built ctx attrs w lg h
  refine ⟨_, w2, hw, ?_⟩
  unfold built
  rw [logger.FromContext_WithLogger]
  exact hd

theorem logger.New_eq (caseTo : Char → Char) (cfg : Config) (w : World) :
    New caseTo cfg w = some (w.alloc
      { handler :=
          match strings.ToLower caseTo cfg.Format with
          | "text" => NewTextHandler (parseOutput caseTo cfg.Output)
              { Level := some (parseLevel caseTo cfg.Level),
                AddSource := parseLevel caseTo cfg.Level == LevelDebug }
          | _ => NewJSONHandler (parseOutput caseTo cfg.Output)
              { Level := some (parseLevel caseTo cfg.Level),
                AddSource := parseLevel caseTo cfg.Level == LevelDebug } }) := rfl

theorem logger.parseLevel_eq_debug (caseTo : Char → Char) (s : String) :
    parseLevel caseTo s = LevelDebug ↔ strings.ToLower caseTo s = "debug" := by
  unfold parseLevel
  split <;> simp_all [LevelDebug, LevelInfo, LevelWarn, LevelError]

/-! ## The claims on `logger.go` -/

/-- C1. `parseLevel s` is decided by `strings.ToLower s` alone: it is Debug
exactly when the lower-cased string is "debug", Warn exactly when it is "warn"
or "warning", Error exactly when it is "error", and Info exactly when it is
none of these four; "DEBUG", "Debug" and "debug" resolve to Debug, and "info",
"trace" and the empty string to Info. -/
theorem parseLevel_by_lowercase (caseTo : Char → Char) (s : String) :
    (parseLevel caseTo s = LevelDebug ↔ strings.ToLower caseTo s = "debug") ∧
    (parseLevel caseTo s = LevelWarn ↔
      (strings.ToLower caseTo s = "warn" ∨ strings.ToLower caseTo s = "warning")) ∧
    (parseLevel caseTo s = LevelError ↔ strings.ToLower caseTo s = "error") ∧
    (parseLevel caseTo s = LevelInfo ↔
      (strings.ToLower caseTo s ≠ "debug" ∧ strings.ToLower caseTo s ≠ "warn" ∧
        strings.ToLower caseTo s ≠ "warning" ∧ strings.ToLower caseTo s ≠ "error")) ∧
    (∀ t : String, strings.ToLower caseTo t = strings.ToLower caseTo s →
      parseLevel caseTo t = parseLevel caseTo s) ∧
    parseLevel caseTo "DEBUG" = LevelDebug ∧
    parseLevel caseTo "Debug" = LevelDebug ∧
    parseLevel caseTo "debug" = LevelDebug ∧
    parseLevel caseTo "info" = LevelInfo ∧
    parseLevel caseTo "trace" = LevelInfo ∧
    parseLevel caseTo "" = LevelInfo := by
  refine ⟨?_, ?_, ?_, ?_, ?_, rfl, rfl, rfl, rfl, rfl, rfl⟩
  · unfold parseLevel
    split <;> simp_all [LevelDebug, LevelInfo, LevelWarn, LevelError]
  · unfold parseLevel
    split <;> simp_all [LevelDebug, LevelInfo, LevelWarn, LevelError]
  · unfold parseLevel
    split <;> simp_all [LevelDebug, LevelInfo, LevelWarn, LevelError]
  · unfold parseLevel
    split <;> simp_all [LevelDebug, LevelInfo, LevelWarn, LevelError]
  · intro t ht
    unfold parseLevel
    rw [ht]

/-- C8. For every Config, `New` returns a live logger whose handler has
`AddSource` set exactly when the level resolved from `cfg.Level` is Debug, that
is exactly when the lower-cased `cfg.Level` is "debug"; its minimum level is
`parseLevel cfg.Level`: a record carries the source annotation exactly in the
Debug case, and is emitted exactly when its level is at least that minimum. -/
theorem New_AddSource_iff_debug (caseTo : Char → Char) (cfg : Config) (w : World) :
    ∃ p w2 lg, New caseTo cfg w = some (some p, w2) ∧ w2.deref (some p) = some lg ∧
      (lg.handler.common.opts.AddSource = true ↔ parseLevel caseTo cfg.Level = LevelDebug) ∧
      (lg.handler.common.opts.AddSource = true ↔ strings.ToLower caseTo cfg.Level = "debug") ∧
      lg.handler.common.opts.Level = some (parseLevel caseTo cfg.Level) ∧
      (∀ r : Record, (lg.handler.common.handle r).source = true ↔
        strings.ToLower caseTo cfg.Level = "debug") ∧
      (∀ r : Record, (lg.log r).isSome = true ↔ parseLevel caseTo cfg.Level ≤ r.Level) := by
  refine ⟨_, _, _, logger.New_eq caseTo cfg w, World.deref_alloc _ _, ?_⟩
  have hd := logger.parseLevel_eq_debug caseTo cfg.Level
  split <;>
    simp [NewTextHandler, NewJSONHandler, Handler.common, commonHandler.handle, Logger.log,
      commonHandler.enabled, ← hd]

/-- C9. For every Config, `New` does not panic and returns a live logger whose
handler is the text handler exactly when the lower-cased `cfg.Format` is
"text" and the JSON handler for every other value, whatever `cfg.Level` and
`cfg.Output` are; "json", "JSON", "xml" and the empty string select JSON,
"text" and "TEXT" select text. -/
theorem New_format_text_iff (caseTo : Char → Char) (cfg : Config) (w : World) :
    (∃ p w2 lg, New caseTo cfg w = some (some p, w2) ∧ w2.deref (some p) = some lg ∧
      ((∃ h, lg.handler = Handler.TextHandler h) ↔
        strings.ToLower caseTo cfg.Format = "text") ∧
      ((∃ h, lg.handler = Handler.JSONHandler h) ↔
        strings.ToLower caseTo cfg.Format ≠ "text") ∧
      (lg.handler.common.json = false ↔ strings.ToLower caseTo cfg.Format = "text") ∧
      (∀ r : Record, (lg.handler.common.handle r).json = false ↔
        strings.ToLower caseTo cfg.Format = "text")) ∧
    (∀ lv out : String,
      (built (New caseTo { Level := lv, Format := cfg.Format, Output := out }) w).map
          (fun lg => lg.handler.common.json) =
        (built (New caseTo cfg) w).map (fun lg => lg.handler.common.json)) ∧
    (∀ lv out : String, ∀ fmt ∈ ["json", "JSON", "xml", ""],
      (built (New caseTo { Level := lv, Format := fmt, Output := out }) w).map
          (fun lg => lg.handler.common.json) = some true) ∧
    (∀ lv out : String, ∀ fmt ∈ ["text", "TEXT", "Text"],
      (built (New caseTo { Level := lv, Format := fmt, Output := out }) w).map
          (fun lg => lg.handler.common.json) = some false) := by
  refine ⟨⟨_, _, _, logger.New_eq caseTo cfg w, World.deref_alloc _ _, ?_⟩, ?_, ?_, ?_⟩
  · split <;>
      simp_all [NewTextHandler, NewJSONHandler, Handler.common, commonHandler.handle]
  · intro lv out
    unfold built
    rw [logger.New_eq, logger.New_eq]
    simp only [World.deref_alloc, Option.map_some']
    split <;> rfl
  · intro lv out fmt hfmt
    unfold built
    rw [logger.New_eq]
    simp only [World.deref_alloc, Option.map_some']
    simp only [List.mem_cons, List.mem_singleton, List.not_mem_nil, or_false] at hfmt
    rcases hfmt with rfl | rfl | rfl | rfl <;> rfl
  · intro lv out fmt hfmt
    unfold built
    rw [logger.New_eq]
    simp only [World.deref_alloc, Option.map_some']
    simp only [List.mem_cons, List.mem_singleton, List.not_mem_nil, or_false] at hfmt
    rcases hfmt with rfl | rfl | rfl <;> rfl

/-- C10. `DefaultConfig()` is the Config with Level "info", Format "json" and
Output "stdout"; `New` applied to it builds a logger with minimum level Info,
the JSON handler, standard output and no source annotation, and `New` applied
to the Config whose three fields are empty gives the very same result. -/
theorem DefaultConfig_resolution (caseTo : Char → Char) (w : World) :
    DefaultConfig = { Level := "info", Format := "json", Output := "stdout" } ∧
    (∃ p w2 lg, New caseTo DefaultConfig w = some (some p, w2) ∧
      w2.deref (some p) = some lg ∧
      lg.handler = Handler.JSONHandler
        { json := true, opts := { AddSource := false, Level := some LevelInfo },
          preformattedAttrs := [], w := Writer.Stdout }) ∧
    New caseTo { Level := "", Format := "", Output := "" } w = New caseTo DefaultConfig w := by
  refine ⟨rfl, ⟨_, _, _, logger.New_eq caseTo DefaultConfig w, World.deref_alloc _ _, rfl⟩, rfl⟩

/-! ## The claims on `middleware.go` -/

/-- C2. For every context and every logger pointer `h` (nil included),
`FromContext(WithLogger(ctx, h))` returns exactly `h` and leaves the state as
it is, also when another handle was attached to the context before. -/
theorem FromContext_WithLogger_returns_handle (w : World) (ctx : Context) (h : LoggerPtr) :
    (do let c ← WithLogger ctx h; FromContext c) w = some (h, w) ∧
    (∀ h0 : LoggerPtr,
      (do let c0 ← WithLogger ctx h0; let c ← WithLogger c0 h; FromContext c) w =
        some (h, w)) := by
  constructor
  · exact logger.FromContext_WithLogger ctx h w
  · intro h0
    exact logger.FromContext_WithLogger
      (context.WithValue ctx Any.contextKey (Any.logger h0)) h w

/-- C3. For every context with no logger attached under the private key,
`FromContext` returns the pointer held by the process-wide default logger, two
calls in a row return that same pointer, and it is still what `FromContext`
returns after a `With` on any context or a `New` has run in between. -/
theorem FromContext_default_when_absent (w : World) (ctx : Context)
    (hno : ∀ l, ctx.Value Any.contextKey ≠ some (Any.logger l)) :
    FromContext ctx w = some (some w.defaultLogger, w) ∧
    (do let a ← FromContext ctx; let b ← FromContext ctx; pure (a, b)) w =
      some ((some w.defaultLogger, some w.defaultLogger), w) ∧
    (∀ c0 attrs c w2, With c0 attrs w = some (c, w2) →
      FromContext ctx w2 = some (some w.defaultLogger, w2)) ∧
    (∀ caseTo cfg p w2, New caseTo cfg w = some (p, w2) →
      FromContext ctx w2 = some (some w.defaultLogger, w2)) := by
  have key : ∀ w2 : World, w2.defaultLogger = w.defaultLogger →
      FromContext ctx w2 = some (some w.defaultLogger, w2) := by
    intro w2 hw2
    rw [logger.FromContext_eq, ← hw2]
    cases hv : ctx.Value Any.contextKey with
    | none => rfl
    | some v =>
      cases v with
      | logger l => exact absurd hv (hno l)
      | contextKey => rfl
      | other id => rfl
  refine ⟨key w rfl, ?_, ?_, ?_⟩
  · simp only [bind, StateT.bind, key w rfl, Option.bind]
    rfl
  · intro c0 attrs c w2 hw
    obtain ⟨l, l2, -, hlw, -⟩ := logger.With_inv c0 attrs w w2 c hw
    exact key w2 (slog.Logger_With_frame l attrs w w2 l2 hlw).2
  · intro caseTo cfg p w2 hn
    rw [logger.New_eq] at hn
    simp only [World.alloc, Option.some.injEq, Prod.mk.injEq] at hn
    exact key w2 (by rw [← hn.2])

/-- Witness of C3 at the root context. -/
theorem FromContext_default_when_absent_witness :
    FromContext Context.Background World.start = some (some 0, World.start) :=
  (FromContext_default_when_absent World.start Context.Background
    (fun l h => by simp [Context.Value] at h)).1

/-- C5. `With` and `WithLogger` do not change what the context they are given
yields: when either has returned, `FromContext(ctx)` is the same pointer as
before, it refers to the same logger object (handler and attributes), and
every logger object that existed before is unchanged. -/
theorem With_WithLogger_leave_context (w w2 : World) (ctx c : Context) (attrs : List Attr)
    (h : LoggerPtr)
    (hop : With ctx attrs w = some (c, w2) ∨ WithLogger ctx h w = some (c, w2)) :
    ∃ l, FromContext ctx w = some (l, w) ∧ FromContext ctx w2 = some (l, w2) ∧
      w2.deref l = w.deref l ∧
      (∀ q d, w.deref q = some d → w2.deref q = some d) ∧
      (∃ l2, c = Context.valueCtx ctx Any.contextKey (Any.logger l2)) := by
  rcases hop with hw | hw
  · obtain ⟨l, l2, hf, hlw, hc⟩ := logger.With_inv ctx attrs w w2 c hw
    obtain ⟨hframe, hdef⟩ := slog.Logger_With_frame l attrs w w2 l2 hlw
    refine ⟨l, hf, ?_, slog.Logger_With_deref_self l attrs w w2 l2 hlw, hframe, l2, hc⟩
    rw [logger.FromContext_eq] at hf ⊢
    simp only [Option.some.injEq, Prod.mk.injEq, and_true] at hf
    rw [hdef, hf]
  · simp only [WithLogger, pure, StateT.pure, Option.some.injEq, Prod.mk.injEq] at hw
    obtain ⟨hc, rfl⟩ := hw
    exact ⟨_, logger.FromContext_eq ctx w, logger.FromContext_eq ctx w, rfl,
      fun _ _ hq => hq, h, hc.symm⟩

/-- Witness of C5: attaching a=1 to the root context in the sample state. -/
theorem With_WithLogger_leave_context_witness :
    ∃ c w2, With Context.Background [Attr.mk "a" (Value.string "1")] World.start =
        some (c, w2) ∧
      ∃ l, FromContext Context.Background World.start = some (l, World.start) ∧
        FromContext Context.Background w2 = some (l, w2) ∧
        w2.deref l = World.start.deref l :=
  ⟨_, _, rfl,
    (With_WithLogger_leave_context World.start _ Context.Background _
      [Attr.mk "a" (Value.string "1")] none (Or.inl rfl)).imp
      (fun _ hl => ⟨hl.1, hl.2.1, hl.2.2.1⟩)⟩

/-- Counterexample to C6 as stated: after `WithLogger(Background, nil)`,
`FromContext` returns the nil pointer; and called on the nil context it does
not return at all, it panics. -/
theorem FromContext_absent_or_panics :
    (do let c ← WithLogger Context.Background none; FromContext c) World.start =
      some (none, World.start) ∧
    FromContextCall none World.start = none :=
  ⟨rfl, rfl⟩

/-- C6, amended. For every non-nil context in which the value found under the
private key is not a nil `*slog.Logger`, `FromContext` does not panic and
returns a non-nil pointer: the default logger when nothing is attached, and `h`
after `WithLogger(ctx0, h)` with `h` non-nil. The handle is usable: whenever
the pointers held by the context and by the default logger are addresses of
allocated loggers, the returned pointer refers to a logger object, and
`(*Logger).With` on it and `With` on the context return without a panic for
every attribute list. -/
theorem FromContext_not_nil (w : World) (ctx : Context)
    (hnn : ctx.Value Any.contextKey ≠ some (Any.logger none)) :
    (∃ a, FromContext ctx w = some (some a, w) ∧
      FromContextCall (some ctx) w = some (some a, w) ∧
      (w.defaultLogger < w.loggers.length →
        (∀ b, ctx.Value Any.contextKey = some (Any.logger (some b)) →
          b < w.loggers.length) →
        ∃ lg, w.deref (some a) = some lg ∧
          (∀ attrs : List Attr, ∃ p w2, slog.Logger.With (some a) attrs w = some (p, w2)) ∧
          (∀ attrs : List Attr, ∃ c w2, With ctx attrs w = some (c, w2)))) ∧
    (∀ (ctx0 : Context) (a : Nat),
      (do let c ← WithLogger ctx0 (some a); FromContext c) w = some (some a, w)) := by
  have usable : ∀ a : Nat, FromContext ctx w = some (some a, w) → a < w.loggers.length →
      ∃ lg, w.deref (some a) = some lg ∧
        (∀ attrs : List Attr, ∃ p w2, slog.Logger.With (some a) attrs w = some (p, w2)) ∧
        (∀ attrs : List Attr, ∃ c w2, With ctx attrs w = some (c, w2)) := by
    intro a hf ha
    have hd : w.deref (some a) = some (w.loggers[a]) := by
      simp [World.deref, List.getElem?_eq_getElem ha]
    refine ⟨_, hd, ?_, ?_⟩
    · intro attrs
      obtain ⟨p, w2, hw, -⟩ := slog.Logger_With_of_deref (some a) attrs w _ hd
      exact ⟨p, w2, hw⟩
    · intro attrs
      have hb : built (FromContext ctx) w = some (w.loggers[a]) := by
        unfold built
        rw [hf]
        exact hd
      obtain ⟨p, w2, hw, -⟩ := logger.With_of_built ctx attrs w _ hb
      exact ⟨_, w2, hw⟩
  refine ⟨?_, ?_⟩
  · have hf := logger.FromContext_eq ctx w
    cases hv : ctx.Value Any.contextKey with
    | none =>
      rw [hv] at hf
      exact ⟨w.defaultLogger, hf, hf, fun hdef _ => usable _ hf hdef⟩
    | some v =>
      rw [hv] at hf
      cases v with
      | contextKey => exact ⟨w.defaultLogger, hf, hf, fun hdef _ => usable _ hf hdef⟩
      | other id => exact ⟨w.defaultLogger, hf, hf, fun hdef _ => usable _ hf hdef⟩
      | logger l =>
        cases l with
        | none => exact absurd hv hnn
        | some a => exact ⟨a, hf, hf, fun _ hlive => usable _ hf (hlive a rfl)⟩
  · intro ctx0 a
    exact logger.FromContext_WithLogger ctx0 (some a) w

/-- Witness of C6, amended, at the root context of the sample state: the
default logger is returned, and it is an allocated logger object. -/
theorem FromContext_not_nil_witness :
    ∃ a lg, FromContext Context.Background World.start = some (some a, World.start) ∧
      World.start.deref (some a) = some lg := by
  obtain ⟨a, hf, -, hu⟩ := (FromContext_not_nil World.start Context.Background
    (fun h => by simp [Context.Value] at h)).1
  obtain ⟨lg, hd, -⟩ := hu (by decide) (fun b h => by simp [Context.Value] at h)
  exact ⟨a, lg, hf, hd⟩

/-- Counterexample to C4 as stated: on a context that carries a nil handle,
`With` with one attribute panics (nil pointer dereference in `Logger.With`),
so there is no resulting context to read a handle from. -/
theorem With_panics_on_nil_handle :
    (do let c ← WithLogger Context.Background none
        With c [Attr.mk "a" (Value.string "1")]) World.start = none := rfl

/-- C4, amended. For every context whose current handle `FromContext(ctx)` is
a live (non-nil) logger and every attribute list, `FromContext(With(ctx,
attrs))` is that logger with `attrs` appended, in order, after the attributes
it already carries, everything else being kept; every record it handles shows
the old attributes, then `attrs`, then its own. Hence `With(With(ctx, a=1),
b=2)` yields a handle whose records contain a=1 and then b=2. -/
theorem FromContext_With_appends (w : World) (ctx : Context) (attrs : List Attr) (lg : Logger)
    (hb : built (FromContext ctx) w = some lg) :
    (∃ lg2, built (do let c ← With ctx attrs; FromContext c) w = some lg2 ∧
      lg2.handler = lg.handler.WithAttrs attrs ∧
      lg2.handler.common.preformattedAttrs =
        lg.handler.common.preformattedAttrs ++ appendAttrs [] attrs ∧
      lg2.handler.common.json = lg.handler.common.json ∧
      lg2.handler.common.opts = lg.handler.common.opts ∧
      lg2.handler.common.w = lg.handler.common.w ∧
      ((∀ a ∈ attrs, a.Value.isGroup = false ∧ a.isEmpty = false) →
        lg2.handler.common.preformattedAttrs =
          lg.handler.common.preformattedAttrs ++ attrs.map (fun a => ([a.Key], a.Value))) ∧
      (∀ r : Record, (lg2.handler.common.handle r).attrs =
        lg.handler.common.preformattedAttrs ++ appendAttrs [] attrs ++
          appendAttrs [] r.Attrs)) ∧
    (∃ lg3, built (do
        let c1 ← With ctx [Attr.mk "a" (Value.string "1")]
        let c2 ← With c1 [Attr.mk "b" (Value.string "2")]
        FromContext c2) w = some lg3 ∧
      lg3.handler.common.preformattedAttrs =
        lg.handler.common.preformattedAttrs ++
          [(["a"], Value.string "1"), (["b"], Value.string "2")] ∧
      (∀ r : Record, (lg3.handler.common.handle r).attrs =
        lg.handler.common.preformattedAttrs ++
          [(["a"], Value.string "1"), (["b"], Value.string "2")] ++
          appendAttrs [] r.Attrs)) := by
  constructor
  · obtain ⟨c, w2, hw, hb2⟩ := logger.built_With_FromContext ctx attrs w lg hb
    have hpre := slog.withAttrs_preformattedAttrs lg.handler.common attrs
    have hrest := slog.withAttrs_rest lg.handler.common attrs
    refine ⟨{ handler := lg.handler.WithAttrs attrs }, ?_, rfl, ?_, ?_, ?_, ?_, ?_, ?_⟩
    · rw [logger.built_bind _ _ w w2 c hw]
      exact hb2
    · show (lg.handler.WithAttrs attrs).common.preformattedAttrs = _
      rw [slog.WithAttrs_common]; exact hpre
    · show (lg.handler.WithAttrs attrs).common.json = _
      rw [slog.WithAttrs_common]; exact hrest.1
    · show (lg.handler.WithAttrs attrs).common.opts = _
      rw [slog.WithAttrs_common]; exact hrest.2.1
    · show (lg.handler.WithAttrs attrs).common.w = _
      rw [slog.WithAttrs_common]; exact hrest.2.2
    · intro hplain
      show (lg.handler.WithAttrs attrs).common.preformattedAttrs = _
      rw [slog.WithAttrs_common, hpre, slog.appendAttrs_plain [] attrs hplain]
      simp
    · intro r
      show (lg.handler.WithAttrs attrs).common.preformattedAttrs ++ _ = _
      rw [slog.WithAttrs_common, hpre]
  · obtain ⟨c1, w1, hw1, hb1⟩ :=
      logger.built_With_FromContext ctx [Attr.mk "a" (Value.string "1")] w lg hb
    obtain ⟨c2, w2, hw2, hb2⟩ :=
      logger.built_With_FromContext c1 [Attr.mk "b" (Value.string "2")] w1 _ hb1
    have hpre : ((lg.handler.WithAttrs [Attr.mk "a" (Value.string "1")]).WithAttrs
        [Attr.mk "b" (Value.string "2")]).common.preformattedAttrs =
        lg.handler.common.preformattedAttrs ++
          [(["a"], Value.string "1"), (["b"], Value.string "2")] := by
      rw [slog.WithAttrs_common, slog.withAttrs_preformattedAttrs, slog.WithAttrs_common,
        slog.withAttrs_preformattedAttrs]
      simp [appendAttrs, appendAttr, Value.isZero]
    refine ⟨Logger.mk ((lg.handler.WithAttrs [Attr.mk "a" (Value.string "1")]).WithAttrs
        [Attr.mk "b" (Value.string "2")]), ?_, hpre, ?_⟩
    · rw [logger.built_bind _ _ w w1 c1 hw1, logger.built_bind _ _ w1 w2 c2 hw2]
      exact hb2
    · intro r
      show ((lg.handler.WithAttrs [Attr.mk "a" (Value.string "1")]).WithAttrs
        [Attr.mk "b" (Value.string "2")]).common.preformattedAttrs ++ _ = _
      rw [hpre]

/-- Witness of C4, amended: k=v attached to the root context of the sample
state, whose handle is the default logger. -/
theorem FromContext_With_appends_witness :
    ∃ lg2, built (do
        let c ← With Context.Background [Attr.mk "k" (Value.string "v")]
        FromContext c) World.start = some lg2 ∧
      lg2.handler = Handler.defaultHandler
        { json := false, opts := { AddSource := false, Level := none },
          preformattedAttrs := [(["k"], Value.string "v")], w := Writer.Stderr } :=
  (FromContext_With_appends World.start Context.Background
    [Attr.mk "k" (Value.string "v")] _ rfl).1.imp (fun _ h => ⟨h.1, h.2.1⟩)

/-- Counterexample to C7 as stated: after k=1 and then k=2 have been attached
to the root context, the attributes written for a record are k=1 followed by
k=2, so the earlier value is still shown; and on a context that carries a nil
handle the two calls give no handle at all, the first `With` panics. -/
theorem With_same_key_keeps_earlier_value :
    (∃ lg, built (do
        let c1 ← With Context.Background [Attr.mk "k" (Value.string "1")]
        let c2 ← With c1 [Attr.mk "k" (Value.string "2")]
        FromContext c2) World.start = some lg ∧
      (lg.handler.common.handle { Level := LevelInfo, Message := "m", Attrs := [] }).attrs =
        [(["k"], Value.string "1"), (["k"], Value.string "2")] ∧
      (["k"], Value.string "1") ∈
        (lg.handler.common.handle { Level := LevelInfo, Message := "m", Attrs := [] }).attrs) ∧
    (do
      let c0 ← WithLogger Context.Background none
      let c1 ← With c0 [Attr.mk "k" (Value.string "1")]
      With c1 [Attr.mk "k" (Value.string "2")]) World.start = none :=
  ⟨⟨_, rfl, rfl, List.mem_cons_self _ _⟩, rfl⟩

/-- C7, amended. For every context whose current handle is non-nil, every key
`k` and all values `v1`, `v2`, nothing is de-duplicated by
`With(With(ctx, k=v1), k=v2)`: the attribute output of the resulting handle is
the output the handle had before, then what slog writes for k=v1, then what it
writes for k=v2, and every record shows them in that order before its own
attributes. What slog writes for one attribute k=v is nothing when it is the
empty Attr (empty key, nil value), the single entry k=v when `v` is not a group
and the Attr is not empty, and the entries of its members, under the group
name `k` (inlined when `k` is empty), when `v` is a group.
So when `v1` and `v2` are not groups and neither Attr is empty, both k=v1 and
k=v2 are shown, v1 first: the later value is the last entry for `k`, and the
earlier value is still there. -/
theorem With_same_key_writes_both (w : World) (ctx : Context) (lg : Logger) (k : String)
    (v1 v2 : Value) (hb : built (FromContext ctx) w = some lg) :
    (∃ lg3, built (do
        let c1 ← With ctx [Attr.mk k v1]
        let c2 ← With c1 [Attr.mk k v2]
        FromContext c2) w = some lg3 ∧
      lg3.handler.common.preformattedAttrs =
        lg.handler.common.preformattedAttrs ++ appendAttr [] (Attr.mk k v1) ++
          appendAttr [] (Attr.mk k v2) ∧
      (∀ r : Record, (lg3.handler.common.handle r).attrs =
        lg.handler.common.preformattedAttrs ++ appendAttr [] (Attr.mk k v1) ++
          appendAttr [] (Attr.mk k v2) ++ appendAttrs [] r.Attrs) ∧
      (v1.isGroup = false → (Attr.mk k v1).isEmpty = false →
        v2.isGroup = false → (Attr.mk k v2).isEmpty = false →
        lg3.handler.common.preformattedAttrs =
          lg.handler.common.preformattedAttrs ++ [([k], v1), ([k], v2)] ∧
        ([k], v1) ∈ lg3.handler.common.preformattedAttrs ∧
        (lg3.handler.common.preformattedAttrs.filter
          (fun f => decide (f.1 = [k]))).getLast? = some ([k], v2))) ∧
    (∀ v : Value, (Attr.mk k v).isEmpty = true → appendAttr [] (Attr.mk k v) = []) ∧
    (∀ v : Value, v.isGroup = false → (Attr.mk k v).isEmpty = false →
      appendAttr [] (Attr.mk k v) = [([k], v)]) ∧
    (∀ as : List Attr, appendAttr [] (Attr.mk k (Value.group as)) =
      appendAttrs (if k = "" then [] else [k]) as) := by
  obtain ⟨c1, w1, hw1, hb1⟩ := logger.built_With_FromContext ctx [Attr.mk k v1] w lg hb
  obtain ⟨c2, w2, hw2, hb2⟩ := logger.built_With_FromContext c1 [Attr.mk k v2] w1 _ hb1
  have hone : ∀ a : Attr, appendAttrs [] [a] = appendAttr [] a := by
    intro a
    simp [appendAttrs]
  have hpre : ((lg.handler.WithAttrs [Attr.mk k v1]).WithAttrs
      [Attr.mk k v2]).common.preformattedAttrs =
      lg.handler.common.preformattedAttrs ++ appendAttr [] (Attr.mk k v1) ++
        appendAttr [] (Attr.mk k v2) := by
    rw [slog.WithAttrs_common, slog.withAttrs_preformattedAttrs, slog.WithAttrs_common,
      slog.withAttrs_preformattedAttrs, hone, hone]
  refine ⟨⟨Logger.mk ((lg.handler.WithAttrs [Attr.mk k v1]).WithAttrs [Attr.mk k v2]),
    ?_, hpre, ?_, ?_⟩, ?_, ?_, ?_⟩
  · rw [logger.built_bind _ _ w w1 c1 hw1, logger.built_bind _ _ w1 w2 c2 hw2]
    exact hb2
  · intro r
    show ((lg.handler.WithAttrs [Attr.mk k v1]).WithAttrs
      [Attr.mk k v2]).common.preformattedAttrs ++ _ = _
    rw [hpre]
  · intro hg1 he1 hg2 he2
    have hboth : ((lg.handler.WithAttrs [Attr.mk k v1]).WithAttrs
        [Attr.mk k v2]).common.preformattedAttrs =
        lg.handler.common.preformattedAttrs ++ [([k], v1), ([k], v2)] := by
      rw [hpre, slog.appendAttr_plain [] (Attr.mk k v1) hg1 he1,
        slog.appendAttr_plain [] (Attr.mk k v2) hg2 he2]
      simp [Attr.Key, Attr.Value]
    refine ⟨hboth, ?_, ?_⟩
    · show _ ∈ ((lg.handler.WithAttrs [Attr.mk k v1]).WithAttrs
        [Attr.mk k v2]).common.preformattedAttrs
      rw [hboth]
      simp
    · show (((lg.handler.WithAttrs [Attr.mk k v1]).WithAttrs
        [Attr.mk k v2]).common.preformattedAttrs.filter _).getLast? = _
      rw [hboth]
      simp [List.filter_append, List.filter_cons]
  · intro v he
    have hk : k = "" ∧ v.isZero = true := by
      simpa [Attr.isEmpty, Attr.Key, Attr.Value] using he
    cases v with
    | group as => simp [Value.isZero] at hk
    | any x => simp [appendAttr, hk.1, hk.2]
    | bool b => simp [Value.isZero] at hk
    | int64 n => simp [Value.isZero] at hk
    | string t => simp [Value.isZero] at hk
  · intro v hg he
    exact slog.appendAttr_plain [] (Attr.mk k v) hg he
  · intro as
    simp [appendAttr]

/-- Witness of C7, amended: the key k with the values "1" and "2" on the root
context of the sample state. -/
theorem With_same_key_writes_both_witness :
    ∃ lg3, built (do
        let c1 ← With Context.Background [Attr.mk "k" (Value.string "1")]
        let c2 ← With c1 [Attr.mk "k" (Value.string "2")]
        FromContext c2) World.start = some lg3 ∧
      lg3.handler.common.preformattedAttrs =
        [(["k"], Value.string "1"), (["k"], Value.string "2")] :=
  (With_same_key_writes_both World.start Context.Background _ "k" (Value.string "1")
    (Value.string "2") rfl).1.imp (fun _ h => ⟨h.1, h.2.1⟩)
